import Mathlib

/-!
Verification of the NextUI Shortcuts pak (Go) against its specification.

The development shallowly embeds the relevant parts of `device.go` (the
version whose constants are `shortcutPrefix` = U+FEFF and
`legacyShortcutPrefix = "★ "`).  Go strings are modelled as lists of
runes (`List Char`): every string operation the embedded code performs
(`strings.HasPrefix/TrimPrefix/HasSuffix/TrimSuffix/TrimSpace/LastIndex`
and slicing between occurrences of the ASCII bytes `(`, `)`, `.`) is
observationally identical on the byte level and on the rune level, because
UTF-8 is self-synchronising and the delimiters searched for are ASCII.
-/

namespace ShortcutsPak

/-- Go strings, modelled as lists of runes. -/
abbrev GoStr := List Char

/-- Literal helper: a Lean string literal as a `GoStr`. -/
def gstr (s : String) : GoStr := s.toList

/-- Models `strings.HasPrefix p` applied to `s` (argument order: pattern first). -/
def goStartsWith : GoStr → GoStr → Bool
  | [], _ => true
  | _ :: _, [] => false
  | p :: ps, a :: s => p == a && goStartsWith ps s

/-- Models `strings.TrimPrefix(s, p)`. -/
def goTrimStart (p s : GoStr) : GoStr :=
  if goStartsWith p s then s.drop p.length else s

/-- Models `strings.HasSuffix(s, p)`. -/
def goHasSuffix (p s : GoStr) : Bool :=
  goStartsWith p.reverse s.reverse

/-- Models `strings.TrimSuffix(s, p)`. -/
def goTrimTail (p s : GoStr) : GoStr :=
  if goHasSuffix p s then (s.reverse.drop p.length).reverse else s

/-- Models Go's `unicode.IsSpace`: the Unicode White_Space code points
(the Latin-1 fast path `\t \n \v \f \r space U+0085 U+00A0` plus the
White_Space property range used by `unicode.IsSpace`). -/
def isGoSpace (c : Char) : Bool :=
  let n := c.toNat
  (0x09 ≤ n && n ≤ 0x0D) || n == 0x20 || n == 0x85 || n == 0xA0 ||
    n == 0x1680 || (0x2000 ≤ n && n ≤ 0x200A) || n == 0x2028 ||
    n == 0x2029 || n == 0x202F || n == 0x205F || n == 0x3000

/-- Leading-whitespace removal (one half of `strings.TrimSpace`). -/
def trimStart (s : GoStr) : GoStr := s.dropWhile isGoSpace

/-- Trailing-whitespace removal (the other half of `strings.TrimSpace`). -/
def trimEnd (s : GoStr) : GoStr := (s.reverse.dropWhile isGoSpace).reverse

/-- Models `strings.TrimSpace`. -/
def goTrimSpace (s : GoStr) : GoStr := trimStart (trimEnd s)

/-- Models `strings.LastIndex(s, c)` for a one-rune needle: the index of the
last occurrence of `c`, or `none` for Go's `-1`. -/
def lastIdx (c : Char) : GoStr → Option Nat
  | [] => none
  | a :: s =>
    match lastIdx c s with
    | some i => some (i + 1)
    | none => if a = c then some 0 else none

/-- The Zero Width No-Break Space U+FEFF: the current invisible marker
(`shortcutPrefix` in the source) prepended to Bottom-position shortcut
folder names. -/
def bomChar : Char := Char.ofNat 0xFEFF

/-- The Zero Width Space U+200B: the superseded invisible marker of the
previous codec generation (documented in the repository's earlier README;
the current source retains only stale comments mentioning it). -/
def zwsChar : Char := Char.ofNat 0x200B

/-- The source's `shortcutPrefix` constant (the single rune U+FEFF). -/
def shortcutPrefixChars : GoStr := [bomChar]

/-- The source's `legacyShortcutPrefix` constant, `"★ "` (star + space). -/
def legacyShortcutPrefixChars : GoStr := ['★', ' ']

/-- The source's `topPrefix` constant, `"0) "`. -/
def topPrefixChars : GoStr := ['0', ')', ' ']

/-- The source's `bridgeEmuTag` constant, `"SHORTCUT"`. -/
def bridgeEmuTagChars : GoStr := gstr "SHORTCUT"

/-- The source's `ShortcutPosition` (`ShortcutPositionBottom/Top/Alpha`). -/
inductive ShortcutPosition where
  | Bottom
  | Top
  | Alpha
deriving DecidableEq

/-- Models `extractTag`: the trimmed substring between the last `(` and the
last `)` of a name, or `""` when absent or ill-ordered. -/
def extractTag (name : GoStr) : GoStr :=
  match lastIdx '(' name with
  | none => []
  | some idx =>
    match lastIdx ')' name with
    | none => []
    | some e =>
      if e ≤ idx then []
      else goTrimSpace ((name.drop (idx + 1)).take (e - (idx + 1)))

/-- Models `extractDisplayName`: everything before the last `(`, trimmed. -/
def extractDisplayName (name : GoStr) : GoStr :=
  match lastIdx '(' name with
  | none => name
  | some idx => goTrimSpace (name.take idx)

/-- Models `stripExtension` (via `filepath.Ext`, which for the slash-free
names involved is the suffix starting at the last `.`). -/
def stripExtension (name : GoStr) : GoStr :=
  let ext := match lastIdx '.' name with
    | none => []
    | some i => name.drop i
  if 2 ≤ ext.length ∧ ext.length ≤ 5 then goTrimTail ext name else name

/-- Models `buildFolderName`: `"{display} ({tag})"` with the position's
sort marker (U+FEFF for Bottom, `"0) "` for Top, nothing for Alpha). -/
def buildFolderName (pos : ShortcutPosition) (displayName tag : GoStr) : GoStr :=
  let base := displayName ++ ([' ', '('] ++ (tag ++ [')']))
  match pos with
  | .Top => topPrefixChars ++ base
  | .Alpha => base
  | .Bottom => shortcutPrefixChars ++ base

/-- Models `isShortcutFolder`.  The folder is given by its base name and by
whether `os.Stat` finds the `.shortcut` marker file inside it. -/
def isShortcutFolder (name : GoStr) (hasMarkerFile : Bool) : Bool :=
  goStartsWith shortcutPrefixChars name || goStartsWith legacyShortcutPrefixChars name ||
    hasMarkerFile

/-- The display-name fallback of `scanShortcuts` (used when the `.shortcut`
marker is absent): `extractDisplayName`, then `TrimPrefix` of the current
invisible marker, then `TrimPrefix` of the legacy `"★ "` glyph. -/
def fallbackDisplay (name : GoStr) : GoStr :=
  goTrimStart legacyShortcutPrefixChars (goTrimStart shortcutPrefixChars (extractDisplayName name))

/-- The display name `scanShortcuts` records: the (trimmed) content of the
`.shortcut` marker file when non-empty, otherwise the fallback above.
`markerContent = []` models both a missing marker and an unreadable one
(`readShortcutMarker` returns `""` in either case). -/
def shortcutDisplay (name markerContent : GoStr) : GoStr :=
  if markerContent = [] then fallbackDisplay name else markerContent

/-- Position recognition and marker stripping for a folder name, as the
specification describes decoding: the current invisible marker denotes
Bottom, the `"0) "` marker denotes Top, no marker denotes Alpha. -/
def stripPositionMarker (name : GoStr) : ShortcutPosition × GoStr :=
  if goStartsWith shortcutPrefixChars name then
    (.Bottom, name.drop shortcutPrefixChars.length)
  else if goStartsWith topPrefixChars name then
    (.Top, name.drop topPrefixChars.length)
  else (.Alpha, name)

/-- The decode direction of the codec: strip the position marker, then
recover the display name the way `scanShortcuts` does without a marker
file (`extractDisplayName` plus its two `TrimPrefix` steps) and the tag
via `extractTag`. -/
def decodeFolderName (name : GoStr) : GoStr × GoStr × ShortcutPosition :=
  let p := stripPositionMarker name
  (fallbackDisplay p.2, extractTag p.2, p.1)

/-! Helper lemmas about the string model, feeding the codec theorems. -/

theorem goStartsWith_nil (s : GoStr) : goStartsWith [] s = true := rfl

theorem goStartsWith_cons (p : Char) (ps : GoStr) (a : Char) (s : GoStr) :
    goStartsWith (p :: ps) (a :: s) = (p == a && goStartsWith ps s) := rfl

theorem goStartsWith_one (p a : Char) (s : GoStr) :
    goStartsWith [p] (a :: s) = (p == a) := by
  rw [goStartsWith_cons, goStartsWith_nil, Bool.and_true]

theorem lastIdx_append (c : Char) (xs ys : GoStr) :
    lastIdx c (xs ++ ys) =
      (match lastIdx c ys with
       | some i => some (xs.length + i)
       | none => lastIdx c xs) := by
  induction xs with
  | nil => cases h : lastIdx c ys <;> simp [h, lastIdx]
  | cons a xs ih =>
    rw [List.cons_append, lastIdx, ih]
    cases h1 : lastIdx c ys with
    | some i => simp only [List.length_cons]; congr 1; omega
    | none => rw [lastIdx]

theorem lastIdx_eq_none (c : Char) (s : GoStr) (h : c ∉ s) : lastIdx c s = none := by
  induction s with
  | nil => rfl
  | cons a s ih =>
    simp only [List.mem_cons, not_or] at h
    rw [lastIdx, ih h.2]
    exact if_neg fun hh => h.1 hh.symm

theorem lastIdx_open (S T : GoStr) (hT : '(' ∉ T) :
    lastIdx '(' (S ++ ([' ', '('] ++ (T ++ [')']))) = some (S.length + 1) := by
  have h1 : lastIdx '(' (T ++ [')']) = none := by
    apply lastIdx_eq_none
    simp only [List.mem_append, List.mem_singleton, not_or]
    exact ⟨hT, by decide⟩
  rw [lastIdx_append]
  rw [show ([' ', '('] ++ (T ++ [')'])) = ' ' :: '(' :: (T ++ [')']) from rfl]
  rw [lastIdx, lastIdx, h1, if_pos rfl]

theorem lastIdx_close (S T : GoStr) :
    lastIdx ')' (S ++ ([' ', '('] ++ (T ++ [')']))) = some (S.length + (T.length + 2)) := by
  have h1 : lastIdx ')' (T ++ [')']) = some T.length := by
    rw [lastIdx_append, show lastIdx ')' [')'] = some 0 from rfl]
    rfl
  rw [lastIdx_append]
  rw [show ([' ', '('] ++ (T ++ [')'])) = ' ' :: '(' :: (T ++ [')']) from rfl]
  rw [lastIdx, lastIdx, h1]

theorem trimSpace_append_space (s : GoStr) : goTrimSpace (s ++ [' ']) = goTrimSpace s := by
  unfold goTrimSpace trimEnd
  rw [List.reverse_append, show ([' '] : GoStr).reverse = [' '] from rfl,
    List.singleton_append, List.dropWhile_cons_of_pos (by decide)]

theorem trimEnd_eq_of_trim {s : GoStr} (h : goTrimSpace s = s) : trimEnd s = s := by
  have hlen1 : (trimEnd s).length ≤ s.length := by
    unfold trimEnd
    rw [List.length_reverse]
    calc (s.reverse.dropWhile isGoSpace).length
        ≤ s.reverse.length := (List.dropWhile_sublist _).length_le
      _ = s.length := List.length_reverse s
  have hlen2 : s.length ≤ (trimEnd s).length := by
    conv_lhs => rw [← h]
    unfold goTrimSpace trimStart
    exact (List.dropWhile_sublist _).length_le
  have hsuffix : s.reverse.dropWhile isGoSpace <:+ s.reverse := List.dropWhile_suffix _
  have hlen : (s.reverse.dropWhile isGoSpace).length = s.reverse.length := by
    have := le_antisymm hlen1 hlen2
    unfold trimEnd at this
    rw [← List.length_reverse (s.reverse.dropWhile isGoSpace), this, List.length_reverse]
  have := hsuffix.eq_of_length hlen
  unfold trimEnd
  rw [this, List.reverse_reverse]

theorem trimStart_eq_of_trim {s : GoStr} (h : goTrimSpace s = s) : trimStart s = s := by
  have hE := trimEnd_eq_of_trim h
  unfold goTrimSpace at h
  rw [hE] at h
  exact h

theorem dropWhile_fixed_head {p : Char → Bool} {b : Char} {t : GoStr}
    (h : (b :: t).dropWhile p = b :: t) : p b = false := by
  by_contra hb
  rw [Bool.not_eq_false] at hb
  rw [List.dropWhile_cons_of_pos hb] at h
  have hle := (List.dropWhile_sublist (l := t) p).length_le
  rw [h] at hle
  simp at hle

theorem trimEnd_cons {s : GoStr} (a : Char) (h : trimEnd s = s) (hne : s ≠ []) :
    trimEnd (a :: s) = a :: s := by
  have hdw : s.reverse.dropWhile isGoSpace = s.reverse := by
    have := congrArg List.reverse h
    unfold trimEnd at this
    rw [List.reverse_reverse] at this
    exact this
  match hrev : s.reverse with
  | [] => exact absurd (by simpa using congrArg List.reverse hrev) hne
  | b :: t =>
    rw [hrev] at hdw
    have hb : isGoSpace b = false := dropWhile_fixed_head hdw
    unfold trimEnd
    rw [show (a :: s).reverse = s.reverse ++ [a] from by simp, hrev, List.cons_append,
      List.dropWhile_cons_of_neg (by simp [hb]), ← List.cons_append, ← hrev]
    simp

theorem trimStart_cons_neg {a : Char} (s : GoStr) (h : isGoSpace a = false) :
    trimStart (a :: s) = a :: s :=
  List.dropWhile_cons_of_neg (by simp [h])

theorem extractTag_encode (S T : GoStr) (hT : goTrimSpace T = T) (hTp : '(' ∉ T) :
    extractTag (S ++ ([' ', '('] ++ (T ++ [')']))) = T := by
  unfold extractTag
  rw [lastIdx_open S T hTp, lastIdx_close S T]
  have hlt : ¬ (S.length + (T.length + 2) ≤ S.length + 1) := by omega
  have hsplit : S ++ ([' ', '('] ++ (T ++ [')'])) = (S ++ [' ', '(']) ++ (T ++ [')']) := by
    simp
  show (if S.length + (T.length + 2) ≤ S.length + 1 then ([] : GoStr)
      else goTrimSpace
        (((S ++ ([' ', '('] ++ (T ++ [')']))).drop (S.length + 1 + 1)).take
          (S.length + (T.length + 2) - (S.length + 1 + 1)))) = T
  rw [if_neg hlt, hsplit, List.drop_left' (by simp),
    show S.length + (T.length + 2) - (S.length + 1 + 1) = T.length from by omega,
    List.take_left' rfl, hT]

theorem extractDisplayName_encode (S T : GoStr) (hTp : '(' ∉ T) :
    extractDisplayName (S ++ ([' ', '('] ++ (T ++ [')']))) = goTrimSpace (S ++ [' ']) := by
  unfold extractDisplayName
  rw [lastIdx_open S T hTp]
  have hsplit : S ++ ([' ', '('] ++ (T ++ [')'])) = (S ++ [' ']) ++ ('(' :: (T ++ [')'])) := by
    simp
  show goTrimSpace ((S ++ ([' ', '('] ++ (T ++ [')']))).take (S.length + 1)) = goTrimSpace (S ++ [' '])
  rw [hsplit, List.take_left' (by simp)]

theorem goTrimStart_pos {p s : GoStr} (h : goStartsWith p s = true) :
    goTrimStart p s = s.drop p.length := by
  unfold goTrimStart
  simp [h]

theorem goTrimStart_neg {p s : GoStr} (h : goStartsWith p s = false) :
    goTrimStart p s = s := by
  unfold goTrimStart
  simp [h]

theorem fallbackDisplay_encode (D T : GoStr) (hD : goTrimSpace D = D) (hTp : '(' ∉ T)
    (h1 : goStartsWith shortcutPrefixChars D = false)
    (h2 : goStartsWith legacyShortcutPrefixChars D = false) :
    fallbackDisplay (D ++ ([' ', '('] ++ (T ++ [')']))) = D := by
  unfold fallbackDisplay
  rw [extractDisplayName_encode D T hTp, trimSpace_append_space, hD]
  simp [goTrimStart, h1, h2]

theorem not_bom_base (D T : GoStr) (h1 : goStartsWith shortcutPrefixChars D = false) :
    goStartsWith shortcutPrefixChars (D ++ ([' ', '('] ++ (T ++ [')']))) = false := by
  cases D with
  | nil =>
    rw [List.nil_append, show ([' ', '('] ++ (T ++ [')'])) = ' ' :: ('(' :: (T ++ [')'])) from rfl,
      show shortcutPrefixChars = [bomChar] from rfl, goStartsWith_one]
    decide
  | cons a D' =>
    rw [show shortcutPrefixChars = [bomChar] from rfl, goStartsWith_one] at h1
    rw [List.cons_append, show shortcutPrefixChars = [bomChar] from rfl, goStartsWith_one]
    exact h1

theorem not_top_base (D T : GoStr) (h3 : goStartsWith topPrefixChars D = false)
    (h4 : D ≠ ['0', ')']) :
    goStartsWith topPrefixChars (D ++ ([' ', '('] ++ (T ++ [')']))) = false := by
  match D with
  | [] =>
    simp only [List.nil_append, topPrefixChars, goStartsWith,
      show ('0' == ' ') = false from rfl, Bool.false_and]
  | [a] =>
    simp only [List.cons_append, List.nil_append, topPrefixChars, goStartsWith,
      show (')' == ' ') = false from rfl, Bool.false_and, Bool.and_false]
  | [a, b] =>
    simp only [List.cons_append, List.nil_append, topPrefixChars, goStartsWith,
      show (' ' == ' ') = true from rfl, Bool.true_and]
    cases ha : ('0' == a) with
    | false => simp
    | true =>
      cases hb : (')' == b) with
      | false => simp [hb]
      | true =>
        exfalso
        exact h4 (by rw [← eq_of_beq ha, ← eq_of_beq hb])
  | a :: b :: c :: D' =>
    simp only [topPrefixChars, goStartsWith, goStartsWith_nil, Bool.and_true] at h3
    simp only [List.cons_append, topPrefixChars, goStartsWith, goStartsWith_nil, Bool.and_true]
    exact h3

theorem strip_bottom (base : GoStr) :
    stripPositionMarker (shortcutPrefixChars ++ base) = (.Bottom, base) := by
  have hc : goStartsWith shortcutPrefixChars (shortcutPrefixChars ++ base) = true := by
    rw [show shortcutPrefixChars ++ base = bomChar :: base from rfl,
      show shortcutPrefixChars = [bomChar] from rfl, goStartsWith_one]
    exact beq_self_eq_true bomChar
  unfold stripPositionMarker
  simp [hc]

theorem strip_top (base : GoStr) :
    stripPositionMarker (topPrefixChars ++ base) = (.Top, base) := by
  have hc1 : goStartsWith shortcutPrefixChars (topPrefixChars ++ base) = false := by
    rw [show topPrefixChars ++ base = '0' :: ([')', ' '] ++ base) from rfl,
      show shortcutPrefixChars = [bomChar] from rfl, goStartsWith_one]
    decide
  have hc2 : goStartsWith topPrefixChars (topPrefixChars ++ base) = true := by
    simp [topPrefixChars, goStartsWith, List.cons_append]
  unfold stripPositionMarker
  simp [hc1, hc2]

theorem strip_alpha (name : GoStr)
    (ha : goStartsWith shortcutPrefixChars name = false)
    (hb : goStartsWith topPrefixChars name = false) :
    stripPositionMarker name = (.Alpha, name) := by
  unfold stripPositionMarker
  simp [ha, hb]

/-- C1 (counterexample): the codec round-trip fails as universally stated.
For the display name `"A "` (trailing blank, as a ROM file named `"A .md"`
produces), tag `"MD"`, position Alphabetical, decoding the encoded folder
name yields the trimmed display `"A"`, not the original `"A "`. -/
theorem c1_roundTrip_counterexample :
    decodeFolderName (buildFolderName .Alpha (gstr "A ") (gstr "MD")) ≠
      (gstr "A ", gstr "MD", ShortcutPosition.Alpha) := by decide

/-- C1 (amended): for every display name, tag and position such that the
display name and tag carry no leading/trailing whitespace, the tag contains
no `'('`, and the display name does not itself begin with one of the three
reserved markers (the invisible Bottom marker, the legacy `"★ "` glyph, or
the `"0) "` Top marker, including the degenerate `"0)"`), encoding with
`buildFolderName` and then decoding as `scanShortcuts` does (strip the
position marker, `extractDisplayName` with its `TrimPrefix` steps, and
`extractTag`) returns exactly the original triple. -/
theorem c1_roundTrip_amended (D T : GoStr) (pos : ShortcutPosition)
    (hD : goTrimSpace D = D) (hT : goTrimSpace T = T) (hTp : '(' ∉ T)
    (h1 : goStartsWith shortcutPrefixChars D = false)
    (h2 : goStartsWith legacyShortcutPrefixChars D = false)
    (h3 : goStartsWith topPrefixChars D = false)
    (h4 : D ≠ ['0', ')']) :
    decodeFolderName (buildFolderName pos D T) = (D, T, pos) := by
  have hdisp := fallbackDisplay_encode D T hD hTp h1 h2
  have htag := extractTag_encode D T hT hTp
  cases pos with
  | Bottom =>
    unfold decodeFolderName
    simp only [buildFolderName, strip_bottom]
    rw [hdisp, htag]
  | Top =>
    unfold decodeFolderName
    simp only [buildFolderName, strip_top]
    rw [hdisp, htag]
  | Alpha =>
    unfold decodeFolderName
    simp only [buildFolderName, strip_alpha _ (not_bom_base D T h1) (not_top_base D T h3 h4)]
    rw [hdisp, htag]

/-- C1 (witness): the amended round-trip at a concrete shortcut. -/
theorem c1_roundTrip_witness :
    decodeFolderName (buildFolderName .Bottom (gstr "Battletoads") (gstr "MD")) =
      (gstr "Battletoads", gstr "MD", ShortcutPosition.Bottom) :=
  c1_roundTrip_amended (gstr "Battletoads") (gstr "MD") .Bottom (by decide) (by decide)
    (by decide) (by decide) (by decide) (by decide) (by decide)

/-- C2 (counterexample): the decoder does not try any deprecated invisible
marker.  For the prior-generation folder name `U+200B ++ "Battletoads (MD)"`
(the Zero Width Space marker documented by the repository's earlier README),
the marker is a recognizable first rune, yet `isShortcutFolder` does not
recognize the name (absent the `.shortcut` file) and the decode leaves the
marker glued to the display name instead of recovering `"Battletoads"`. -/
theorem c2_deprecatedMarker_counterexample :
    goStartsWith [zwsChar] (zwsChar :: gstr "Battletoads (MD)") = true
    ∧ isShortcutFolder (zwsChar :: gstr "Battletoads (MD)") false = false
    ∧ (decodeFolderName (zwsChar :: gstr "Battletoads (MD)")).1 ≠ gstr "Battletoads" := by
  refine ⟨by decide, by decide, by decide⟩

/-- C2 (amended): decoding tries exactly two recognized markers in order —
the current invisible marker (U+FEFF) and then the legacy visible glyph
`"★ "` — stripping whichever matches, so names of those two generations
decode to the original display name and tag; names of the deprecated
invisible-marker generation (U+200B) are not marker-stripped and are
recognized and decoded only through the `.shortcut` marker file, whose
content supplies the display name. -/
theorem c2_generations_decode (D T : GoStr)
    (hD : goTrimSpace D = D) (hT : goTrimSpace T = T) (hTp : '(' ∉ T) (hne : D ≠ [])
    (h1 : goStartsWith shortcutPrefixChars D = false)
    (h2 : goStartsWith legacyShortcutPrefixChars D = false) :
    decodeFolderName (shortcutPrefixChars ++ (D ++ ([' ', '('] ++ (T ++ [')'])))) =
      (D, T, ShortcutPosition.Bottom)
    ∧ (decodeFolderName (legacyShortcutPrefixChars ++ (D ++ ([' ', '('] ++ (T ++ [')']))))).1 = D
    ∧ (decodeFolderName (legacyShortcutPrefixChars ++ (D ++ ([' ', '('] ++ (T ++ [')']))))).2.1 = T
    ∧ shortcutDisplay (zwsChar :: (D ++ ([' ', '('] ++ (T ++ [')'])))) D = D := by
  refine ⟨?_, ?_, ?_, ?_⟩
  · unfold decodeFolderName
    simp only [strip_bottom]
    rw [fallbackDisplay_encode D T hD hTp h1 h2, extractTag_encode D T hT hTp]
  · have hassoc : legacyShortcutPrefixChars ++ (D ++ ([' ', '('] ++ (T ++ [')']))) =
        ('★' :: ' ' :: D) ++ ([' ', '('] ++ (T ++ [')'])) := by
      simp [legacyShortcutPrefixChars]
    have hstar : goTrimSpace ('★' :: ' ' :: D) = '★' :: ' ' :: D := by
      have h5 : trimEnd (' ' :: D) = ' ' :: D := trimEnd_cons ' ' (trimEnd_eq_of_trim hD) hne
      have h6 : trimEnd ('★' :: ' ' :: D) = '★' :: ' ' :: D :=
        trimEnd_cons '★' h5 (by simp)
      unfold goTrimSpace
      rw [h6]
      exact trimStart_cons_neg _ (by decide)
    have hstripA : stripPositionMarker (('★' :: ' ' :: D) ++ ([' ', '('] ++ (T ++ [')']))) =
        (.Alpha, ('★' :: ' ' :: D) ++ ([' ', '('] ++ (T ++ [')']))) := by
      apply strip_alpha
      · rw [List.cons_append, show shortcutPrefixChars = [bomChar] from rfl, goStartsWith_one]
        decide
      · rw [List.cons_append]
        simp only [topPrefixChars, goStartsWith, show ('0' == '★') = false from rfl,
          Bool.false_and]
    unfold decodeFolderName
    rw [hassoc]
    simp only [hstripA]
    unfold fallbackDisplay
    rw [extractDisplayName_encode _ T hTp, trimSpace_append_space, hstar]
    have hbomcond : goStartsWith shortcutPrefixChars ('★' :: ' ' :: D) = false := by
      rw [show shortcutPrefixChars = [bomChar] from rfl, goStartsWith_one]
      decide
    have hstarcond : goStartsWith legacyShortcutPrefixChars ('★' :: ' ' :: D) = true := by
      simp [legacyShortcutPrefixChars, goStartsWith]
    rw [goTrimStart_neg hbomcond, goTrimStart_pos hstarcond]
    rfl
  · have hassoc : legacyShortcutPrefixChars ++ (D ++ ([' ', '('] ++ (T ++ [')']))) =
        ('★' :: ' ' :: D) ++ ([' ', '('] ++ (T ++ [')'])) := by
      simp [legacyShortcutPrefixChars]
    have hstripA : stripPositionMarker (('★' :: ' ' :: D) ++ ([' ', '('] ++ (T ++ [')']))) =
        (.Alpha, ('★' :: ' ' :: D) ++ ([' ', '('] ++ (T ++ [')']))) := by
      apply strip_alpha
      · rw [List.cons_append, show shortcutPrefixChars = [bomChar] from rfl, goStartsWith_one]
        decide
      · rw [List.cons_append]
        simp only [topPrefixChars, goStartsWith, show ('0' == '★') = false from rfl,
          Bool.false_and]
    unfold decodeFolderName
    rw [hassoc]
    simp only [hstripA]
    exact extractTag_encode _ T hT hTp
  · simp [shortcutDisplay, hne]

/-- C2 (witness): both surviving generations decode a concrete shortcut, and
the marker file recovers the U+200B-generation display name. -/
theorem c2_generations_witness :
    decodeFolderName (shortcutPrefixChars ++ (gstr "Battletoads" ++ ([' ', '('] ++ (gstr "MD" ++ [')'])))) =
      (gstr "Battletoads", gstr "MD", ShortcutPosition.Bottom)
    ∧ (decodeFolderName (legacyShortcutPrefixChars ++ (gstr "Battletoads" ++ ([' ', '('] ++ (gstr "MD" ++ [')']))))).1 =
      gstr "Battletoads" :=
  ⟨(c2_generations_decode (gstr "Battletoads") (gstr "MD") (by decide) (by decide) (by decide)
      (by decide) (by decide) (by decide)).1,
   (c2_generations_decode (gstr "Battletoads") (gstr "MD") (by decide) (by decide) (by decide)
      (by decide) (by decide) (by decide)).2.1⟩

/-- C3: `isShortcutFolder` returns false for every plain directory name with
a parenthesized tag (one bearing neither reserved name marker) when no
`.shortcut` marker file is present, and returns true for every
`buildFolderName` output — for Bottom by its marker alone (with or without
the file), for every position once the `.shortcut` file is there. -/
theorem c3_isShortcutFolder_spec (name D T : GoStr) (pos : ShortcutPosition) (m : Bool) :
    (goStartsWith shortcutPrefixChars name = false →
      goStartsWith legacyShortcutPrefixChars name = false →
      extractTag name ≠ [] →
      isShortcutFolder name false = false)
    ∧ isShortcutFolder (buildFolderName .Bottom D T) m = true
    ∧ isShortcutFolder (buildFolderName pos D T) true = true := by
  refine ⟨fun ha hb _ => ?_, ?_, ?_⟩
  · simp [isShortcutFolder, ha, hb]
  · have hc : goStartsWith shortcutPrefixChars (buildFolderName .Bottom D T) = true := by
      simp only [buildFolderName]
      rw [show shortcutPrefixChars ++ (D ++ ([' ', '('] ++ (T ++ [')']))) =
            bomChar :: (D ++ ([' ', '('] ++ (T ++ [')']))) from rfl,
        show shortcutPrefixChars = [bomChar] from rfl, goStartsWith_one]
      exact beq_self_eq_true bomChar
    simp [isShortcutFolder, hc]
  · simp [isShortcutFolder]

/-- C3 (witness): a plain console directory is not a shortcut; created
Bottom/Top shortcut folders are. -/
theorem c3_isShortcutFolder_witness :
    isShortcutFolder (gstr "Sega Genesis (MD)") false = false
    ∧ isShortcutFolder (buildFolderName .Bottom (gstr "Battletoads") (gstr "MD")) false = true
    ∧ isShortcutFolder (buildFolderName .Top (gstr "Battletoads") (gstr "MD")) true = true := by
  have h := c3_isShortcutFolder_spec (gstr "Sega Genesis (MD)") (gstr "Battletoads") (gstr "MD")
    .Top false
  exact ⟨h.1 (by decide) (by decide) (by decide), h.2.1, h.2.2⟩

/-- Models `shortcutExists`: `stat` is the filesystem oracle telling whether
a folder of the given name exists in the roms directory; the source loops
over the three positions and `os.Stat`s each encoded folder name. -/
def shortcutExists (stat : GoStr → Bool) (displayName tag : GoStr) : Bool :=
  [ShortcutPosition.Bottom, ShortcutPosition.Top, ShortcutPosition.Alpha].any
    (fun pos => stat (buildFolderName pos displayName tag))

/-- C4: after a shortcut for (display, tag) is created under any one
position (its encoded folder name now exists), `shortcutExists` returns
true; and the check is exactly the disjunction of the three
position-encoded folder-name probes. -/
theorem c4_shortcutExists_allPositions (stat : GoStr → Bool) (D T : GoStr)
    (pos : ShortcutPosition) :
    shortcutExists (fun n => n == buildFolderName pos D T || stat n) D T = true
    ∧ shortcutExists stat D T =
        (stat (buildFolderName .Bottom D T) || stat (buildFolderName .Top D T) ||
          stat (buildFolderName .Alpha D T)) := by
  constructor
  · cases pos <;> simp [shortcutExists]
  · simp [shortcutExists, Bool.or_assoc]

/-- The write-environment oracle for a single shortcut-creation call:
whether `os.MkdirAll` succeeds and which `os.WriteFile` calls (named by the
file's name inside the shortcut folder) succeed. -/
structure FsEnv where
  mkdirOk : Bool
  writeOk : GoStr → Bool

/-- Models the source's `ROMFile` record (paths omitted: no embedded
operation reads them). -/
structure ROMFile where
  Name : GoStr
  Display : GoStr
  IsMultiDisc : Bool
  IsCueFolder : Bool
  IsDisabled : Bool

/-- Models `createROMShortcut`: result is the list of (file name, content)
writes performed inside the new folder, and the returned error (`none` for
Go's `nil`).  Mirrors the source's control flow: a failed `MkdirAll` or
pointer-file (`.m3u`) write aborts with an error; a failed `.shortcut`
marker write is only logged.  The optional artwork step writes only under
`.media/` and returns no error, so it cannot affect the result and is
modelled separately (`generateArtworkBgNoArt`). -/
def createROMShortcut (env : FsEnv) (displayName tag consoleDirName : GoStr)
    (rom : ROMFile) (pos : ShortcutPosition) : List (GoStr × GoStr) × Option GoStr :=
  let folderName := buildFolderName pos displayName tag
  if env.mkdirOk = false then ([], some (gstr "creating shortcut dir"))
  else
    let relPath :=
      if rom.IsMultiDisc then
        gstr "../" ++ consoleDirName ++ gstr "/" ++ rom.Name ++ gstr "/" ++ rom.Name ++ gstr ".m3u"
      else if rom.IsCueFolder then
        gstr "../" ++ consoleDirName ++ gstr "/" ++ rom.Name ++ gstr "/" ++ rom.Name ++ gstr ".cue"
      else gstr "../" ++ consoleDirName ++ gstr "/" ++ rom.Name
    let m3uName := folderName ++ gstr ".m3u"
    if env.writeOk m3uName = false then ([], some (gstr "writing m3u"))
    else if env.writeOk (gstr ".shortcut") = false then
      ([(m3uName, relPath)], none)
    else ([(m3uName, relPath), (gstr ".shortcut", displayName)], none)

/-- Models `createToolShortcut` the same way: target file, then pointer
`.m3u` containing the literal `"target"`, then the marker (logged-only on
failure). -/
def createToolShortcut (env : FsEnv) (displayName pakPath : GoStr)
    (pos : ShortcutPosition) : List (GoStr × GoStr) × Option GoStr :=
  let folderName := buildFolderName pos displayName bridgeEmuTagChars
  if env.mkdirOk = false then ([], some (gstr "creating shortcut dir"))
  else if env.writeOk (gstr "target") = false then ([], some (gstr "writing target"))
  else
    let m3uName := folderName ++ gstr ".m3u"
    if env.writeOk m3uName = false then
      ([(gstr "target", pakPath)], some (gstr "writing m3u"))
    else if env.writeOk (gstr ".shortcut") = false then
      ([(gstr "target", pakPath), (m3uName, gstr "target")], none)
    else ([(gstr "target", pakPath), (m3uName, gstr "target"), (gstr ".shortcut", displayName)], none)

/-- C5 (counterexample): in an environment where only the `.shortcut`
marker write fails, `createROMShortcut` still returns no error — a
marker-file write error does not propagate, contrary to the claim. -/
theorem c5_markerError_counterexample :
    (createROMShortcut ⟨true, fun f => !(f == gstr ".shortcut")⟩ (gstr "Battletoads")
        (gstr "MD") (gstr "Sega Genesis (MD)")
        ⟨gstr "Battletoads.md", gstr "Battletoads", false, false, false⟩ .Bottom).2 = none
    ∧ (fun f => !(f == gstr ".shortcut")) (gstr ".shortcut") = false := by
  refine ⟨by decide, by decide⟩

/-- C5 (amended): during creation, directory-creation and pointer-file
write errors (and, for tools, target-file write errors) abort the
operation and propagate as a non-nil return; a `.shortcut` marker write
error is logged and never affects the returned error. -/
theorem c5_error_propagation (env : FsEnv) (dn tg cn pak : GoStr) (rom : ROMFile)
    (pos : ShortcutPosition) :
    ((createROMShortcut env dn tg cn rom pos).2 = none ↔
      env.mkdirOk = true ∧ env.writeOk (buildFolderName pos dn tg ++ gstr ".m3u") = true)
    ∧ ((createToolShortcut env dn pak pos).2 = none ↔
      env.mkdirOk = true ∧ env.writeOk (gstr "target") = true ∧
        env.writeOk (buildFolderName pos dn bridgeEmuTagChars ++ gstr ".m3u") = true) := by
  constructor
  · unfold createROMShortcut
    cases h1 : env.mkdirOk <;>
      cases h2 : env.writeOk (buildFolderName pos dn tg ++ gstr ".m3u") <;>
        cases h3 : env.writeOk (gstr ".shortcut") <;> simp [h1, h2, h3]
  · unfold createToolShortcut
    cases h1 : env.mkdirOk <;> cases h2 : env.writeOk (gstr "target") <;>
      cases h3 : env.writeOk (buildFolderName pos dn bridgeEmuTagChars ++ gstr ".m3u") <;>
        cases h4 : env.writeOk (gstr ".shortcut") <;> simp [h1, h2, h3, h4]

/-- The all-writes-succeed environment (creation succeeded). -/
def envAllOk : FsEnv := ⟨true, fun _ => true⟩

/-- C6: the pointer file's content by target kind — `"../<console>/<entry>"`
for a single file, `"../<console>/<entry>/<entry>.m3u"` for a multi-disc
folder, `"../<console>/<entry>/<entry>.cue"` for a single-disc CUE folder;
and for a tool shortcut the co-located `target` file holds the `.pak` path
while the pointer `.m3u` holds the literal token `"target"`. -/
theorem c6_pointerContents (dn tg cn n d pak : GoStr) (dis : Bool)
    (pos : ShortcutPosition) :
    (createROMShortcut envAllOk dn tg cn ⟨n, d, false, false, dis⟩ pos).1.get? 0 =
      some (buildFolderName pos dn tg ++ gstr ".m3u", gstr "../" ++ cn ++ gstr "/" ++ n)
    ∧ (createROMShortcut envAllOk dn tg cn ⟨n, d, true, false, dis⟩ pos).1.get? 0 =
      some (buildFolderName pos dn tg ++ gstr ".m3u",
        gstr "../" ++ cn ++ gstr "/" ++ n ++ gstr "/" ++ n ++ gstr ".m3u")
    ∧ (createROMShortcut envAllOk dn tg cn ⟨n, d, false, true, dis⟩ pos).1.get? 0 =
      some (buildFolderName pos dn tg ++ gstr ".m3u",
        gstr "../" ++ cn ++ gstr "/" ++ n ++ gstr "/" ++ n ++ gstr ".cue")
    ∧ (createToolShortcut envAllOk dn pak pos).1.get? 0 = some (gstr "target", pak)
    ∧ (createToolShortcut envAllOk dn pak pos).1.get? 1 =
      some (buildFolderName pos dn bridgeEmuTagChars ++ gstr ".m3u", gstr "target") := by
  refine ⟨rfl, rfl, rfl, rfl, rfl⟩

/-- C5 (witness): with every filesystem operation succeeding, creation
returns no error. -/
theorem c5_error_witness :
    (createROMShortcut ⟨true, fun _ => true⟩ (gstr "Battletoads") (gstr "MD")
        (gstr "Sega Genesis (MD)")
        ⟨gstr "Battletoads.md", gstr "Battletoads", false, false, false⟩ .Bottom).2 = none :=
  (c5_error_propagation ⟨true, fun _ => true⟩ (gstr "Battletoads") (gstr "MD")
      (gstr "Sega Genesis (MD)") (gstr "pak")
      ⟨gstr "Battletoads.md", gstr "Battletoads", false, false, false⟩ .Bottom).1.mpr
    ⟨rfl, rfl⟩

/-- Models `thumbnailFit`: scale (srcW, srcH) to fit inside (maxW, maxH)
preserving aspect ratio, with Go integer division. -/
def thumbnailFit (srcW srcH maxW maxH : Nat) : Nat × Nat :=
  if srcW = 0 ∨ srcH = 0 then (maxW, maxH)
  else
    let newH := srcH * maxW / srcW
    if maxH < newH then (srcW * maxH / srcH, maxH) else (maxW, newH)

theorem nat_lt_div_succ_mul (a k : Nat) (hk : 0 < k) : a < (a / k + 1) * k := by
  have h := Nat.lt_succ_self (a / k)
  rwa [Nat.div_lt_iff_lt_mul hk] at h

/-- C8: for a source strictly larger than the bounding box in both
dimensions, `thumbnailFit` returns dimensions within the box whose ratio
matches the source aspect ratio within integer rounding (one returned
dimension is the floor of the other scaled by the source ratio). -/
theorem c8_thumbnailFit_spec (srcW srcH maxW maxH : Nat)
    (hW : maxW < srcW) (hH : maxH < srcH) :
    (thumbnailFit srcW srcH maxW maxH).1 ≤ maxW
    ∧ (thumbnailFit srcW srcH maxW maxH).2 ≤ maxH
    ∧ (((thumbnailFit srcW srcH maxW maxH).2 * srcW ≤
          (thumbnailFit srcW srcH maxW maxH).1 * srcH
        ∧ (thumbnailFit srcW srcH maxW maxH).1 * srcH <
          ((thumbnailFit srcW srcH maxW maxH).2 + 1) * srcW)
      ∨ ((thumbnailFit srcW srcH maxW maxH).1 * srcH ≤
          (thumbnailFit srcW srcH maxW maxH).2 * srcW
        ∧ (thumbnailFit srcW srcH maxW maxH).2 * srcW <
          ((thumbnailFit srcW srcH maxW maxH).1 + 1) * srcH)) := by
  have hsW : 0 < srcW := by omega
  have hsH : 0 < srcH := by omega
  unfold thumbnailFit
  rw [if_neg (by omega : ¬(srcW = 0 ∨ srcH = 0))]
  by_cases hc : maxH < srcH * maxW / srcW
  · rw [if_pos hc]
    have h1 : (maxH + 1) * srcW ≤ srcH * maxW := (Nat.le_div_iff_mul_le hsW).mp hc
    have h2 : (srcW * maxH / srcH) * srcH ≤ srcW * maxH := Nat.div_mul_le_self _ _
    have h3 : srcW * maxH < (srcW * maxH / srcH + 1) * srcH :=
      nat_lt_div_succ_mul (srcW * maxH) srcH hsH
    have e1 : (maxH + 1) * srcW = srcW * maxH + srcW := by ring
    have e2 : (maxW + 1) * srcH = srcH * maxW + srcH := by ring
    have e3 : maxH * srcW = srcW * maxH := by ring
    refine ⟨?_, le_refl _, Or.inr ⟨?_, ?_⟩⟩
    · have h4 : srcW * maxH < (maxW + 1) * srcH := by omega
      have h5 : srcW * maxH / srcH < maxW + 1 := (Nat.div_lt_iff_lt_mul hsH).mpr h4
      omega
    · simp only
      omega
    · simp only
      omega
  · rw [if_neg hc]
    push_neg at hc
    have h2 : (srcH * maxW / srcW) * srcW ≤ srcH * maxW := Nat.div_mul_le_self _ _
    have h3 : srcH * maxW < (srcH * maxW / srcW + 1) * srcW :=
      nat_lt_div_succ_mul (srcH * maxW) srcW hsW
    have e1 : maxW * srcH = srcH * maxW := by ring
    refine ⟨le_refl _, hc, Or.inl ⟨?_, ?_⟩⟩
    · simp only
      omega
    · simp only
      omega

/-- C8 (witness): 640×480 art into the Smart Pro thumbnail box 576×432. -/
theorem c8_thumbnailFit_witness :
    (thumbnailFit 640 480 576 432).1 ≤ 576
    ∧ (thumbnailFit 640 480 576 432).2 ≤ 432
    ∧ (((thumbnailFit 640 480 576 432).2 * 640 ≤ (thumbnailFit 640 480 576 432).1 * 480
        ∧ (thumbnailFit 640 480 576 432).1 * 480 < ((thumbnailFit 640 480 576 432).2 + 1) * 640)
      ∨ ((thumbnailFit 640 480 576 432).1 * 480 ≤ (thumbnailFit 640 480 576 432).2 * 640
        ∧ (thumbnailFit 640 480 576 432).2 * 640 < ((thumbnailFit 640 480 576 432).1 + 1) * 480)) :=
  c8_thumbnailFit_spec 640 480 576 432 (by decide) (by decide)

/-- An RGBA pixel of the `image.NRGBA` canvas (non-premultiplied, one Nat
per 8-bit channel). -/
structure Pix where
  r : Nat
  g : Nat
  b : Nat
  a : Nat
deriving DecidableEq

/-- A Go `image.NRGBA` buffer: dimensions plus the pixel at each (x, y). -/
structure GoImage where
  w : Nat
  h : Nat
  pix : Nat → Nat → Pix

/-- The per-axis distance past the corner edge computed by
`applyRoundedCorners` (Go `int` arithmetic, hence `Int`): `radius - x` when
within `radius` of the low edge, `x - (dim - radius - 1)` when within
`radius` of the high edge, else 0. -/
def cornerDist (dim : Nat) (radius : Int) (x : Nat) : Int :=
  if (x : Int) < radius then radius - x
  else if (dim : Int) - radius ≤ x then x - ((dim : Int) - radius - 1)
  else 0

/-- Models `applyRoundedCorners`: pixels where `dx*dx + dy*dy > radius²`
are zeroed (RGBA all 0); a non-positive radius or an empty image leaves
the image untouched. -/
def applyRoundedCorners (img : GoImage) (radius : Int) : GoImage :=
  if radius ≤ 0 ∨ img.w = 0 ∨ img.h = 0 then img
  else
    { img with pix := fun x y =>
        if x < img.w ∧ y < img.h then
          if radius * radius <
              cornerDist img.w radius x * cornerDist img.w radius x +
                cornerDist img.h radius y * cornerDist img.h radius y then
            ⟨0, 0, 0, 0⟩
          else img.pix x y
        else img.pix x y }

/-- C9: after `applyRoundedCorners` with radius r > 0 on an image whose
width and height both exceed 2r, the corner pixel (0,0) is fully
transparent (alpha 0) and the centre pixel is unchanged. -/
theorem c9_roundedCorners_spec (img : GoImage) (rad : Nat) (hr : 0 < rad)
    (hw : 2 * rad < img.w) (hh : 2 * rad < img.h) :
    ((applyRoundedCorners img (rad : Int)).pix 0 0).a = 0
    ∧ (applyRoundedCorners img (rad : Int)).pix (img.w / 2) (img.h / 2) =
      img.pix (img.w / 2) (img.h / 2) := by
  have hcond : ¬((rad : Int) ≤ 0 ∨ img.w = 0 ∨ img.h = 0) := by
    push_neg
    refine ⟨by exact_mod_cast hr, by omega, by omega⟩
  have hdx0 : cornerDist img.w (rad : Int) 0 = rad := by
    unfold cornerDist
    rw [if_pos (by exact_mod_cast hr)]
    simp
  have hdy0 : cornerDist img.h (rad : Int) 0 = rad := by
    unfold cornerDist
    rw [if_pos (by exact_mod_cast hr)]
    simp
  have hdxc : cornerDist img.w (rad : Int) (img.w / 2) = 0 := by
    unfold cornerDist
    rw [if_neg (by omega), if_neg (by omega)]
  have hdyc : cornerDist img.h (rad : Int) (img.h / 2) = 0 := by
    unfold cornerDist
    rw [if_neg (by omega), if_neg (by omega)]
  have hsq : (0 : Int) < (rad : Int) * (rad : Int) := by positivity
  constructor
  · show ((applyRoundedCorners img (rad : Int)).pix 0 0).a = 0
    unfold applyRoundedCorners
    rw [if_neg hcond]
    show (if 0 < img.w ∧ 0 < img.h then
        (if (rad : Int) * (rad : Int) <
            cornerDist img.w (rad : Int) 0 * cornerDist img.w (rad : Int) 0 +
              cornerDist img.h (rad : Int) 0 * cornerDist img.h (rad : Int) 0 then
          (⟨0, 0, 0, 0⟩ : Pix)
        else img.pix 0 0)
      else img.pix 0 0).a = 0
    rw [if_pos ⟨by omega, by omega⟩, hdx0, hdy0, if_pos (by omega)]
  · unfold applyRoundedCorners
    rw [if_neg hcond]
    show (if img.w / 2 < img.w ∧ img.h / 2 < img.h then
        (if (rad : Int) * (rad : Int) <
            cornerDist img.w (rad : Int) (img.w / 2) * cornerDist img.w (rad : Int) (img.w / 2) +
              cornerDist img.h (rad : Int) (img.h / 2) * cornerDist img.h (rad : Int) (img.h / 2) then
          (⟨0, 0, 0, 0⟩ : Pix)
        else img.pix (img.w / 2) (img.h / 2))
      else img.pix (img.w / 2) (img.h / 2)) = img.pix (img.w / 2) (img.h / 2)
    rw [if_pos ⟨by omega, by omega⟩, hdxc, hdyc, if_neg (by omega)]

/-- C9 (witness): radius 40 (the source's fixed corner radius) on a
100×100 opaque white image. -/
theorem c9_roundedCorners_witness :
    ((applyRoundedCorners ⟨100, 100, fun _ _ => ⟨255, 255, 255, 255⟩⟩ ((40 : Nat) : Int)).pix 0 0).a = 0
    ∧ (applyRoundedCorners ⟨100, 100, fun _ _ => ⟨255, 255, 255, 255⟩⟩ ((40 : Nat) : Int)).pix 50 50 =
      (⟨255, 255, 255, 255⟩ : Pix) :=
  c9_roundedCorners_spec ⟨100, 100, fun _ _ => ⟨255, 255, 255, 255⟩⟩ 40 (by decide) (by decide)
    (by decide)

/-- The opaque black pixel the canvas fill loop writes. -/
def blackPix : Pix := ⟨0, 0, 0, 255⟩

/-- Models allocating the `image.NRGBA` canvas and the black-fill loop of
`generateArtworkBg` (every pixel `0x00,0x00,0x00,0xff`). -/
def newBlackCanvas (w h : Nat) : GoImage := ⟨w, h, fun _ _ => blackPix⟩

/-- Models `screenDimensions`: 1024×768 on the Brick, 1280×720 otherwise. -/
def screenDimensions (isBrick : Bool) : Nat × Nat :=
  if isBrick then (1024, 768) else (1280, 720)

/-- An exact fraction (numerator, positive denominator), the model of the
float64 values `generateArtworkBg` computes.  Every float operation the
source performs on them (ratios of screen/image dimensions, products,
halves) is modelled by the corresponding exact fraction operation; the
fractions are kept unnormalized so that all arithmetic is plain `Int`
arithmetic. -/
structure Frac where
  num : Int
  den : Int

/-- The fraction n/1. -/
def fnat (n : Nat) : Frac := ⟨n, 1⟩

/-- The fraction i/1. -/
def fint (i : Int) : Frac := ⟨i, 1⟩

/-- One half. -/
def fhalf : Frac := ⟨1, 2⟩

/-- Fraction addition. -/
def fadd (a b : Frac) : Frac := ⟨a.num * b.den + b.num * a.den, a.den * b.den⟩

/-- Fraction subtraction. -/
def fsub (a b : Frac) : Frac := ⟨a.num * b.den - b.num * a.den, a.den * b.den⟩

/-- Fraction multiplication. -/
def fmul (a b : Frac) : Frac := ⟨a.num * b.num, a.den * b.den⟩

/-- Fraction division (keeping the denominator positive). -/
def fdiv (a b : Frac) : Frac :=
  if b.num < 0 then ⟨-(a.num * b.den), a.den * (-b.num)⟩ else ⟨a.num * b.den, a.den * b.num⟩

/-- Strict comparison (valid for positive denominators). -/
def flt (a b : Frac) : Bool := a.num * b.den < b.num * a.den

/-- Floor of a fraction (denominators are positive at every use). -/
def ffloor (a : Frac) : Int := Int.fdiv a.num a.den

/-- Round a non-negative fractional channel value to the nearest Nat. -/
def fround (q : Frac) : Nat := (ffloor (fadd q fhalf)).toNat

/-- Index clamping to `[0, n-1]` used when gathering bilinear neighbours. -/
def clampIdx (i : Int) (n : Nat) : Nat :=
  (max 0 (min i ((n : Int) - 1))).toNat

/-- One bilinear sample of `src` at source-space coordinates (sx, sy):
the four surrounding pixels blended with the fractional-part weights.
Models the sampling performed by the `x/image` `BiLinear` kernel (the Go
library computes the same convex combination in fixed point; exact
fraction arithmetic stands in for its float64/fixed-point evaluation). -/
def bilinearSample (src : GoImage) (sx sy : Frac) : Pix :=
  let x0 : Int := ffloor sx
  let y0 : Int := ffloor sy
  let fx : Frac := fsub sx (fint x0)
  let fy : Frac := fsub sy (fint y0)
  let gx : Frac := fsub (fnat 1) fx
  let gy : Frac := fsub (fnat 1) fy
  let p00 := src.pix (clampIdx x0 src.w) (clampIdx y0 src.h)
  let p10 := src.pix (clampIdx (x0 + 1) src.w) (clampIdx y0 src.h)
  let p01 := src.pix (clampIdx x0 src.w) (clampIdx (y0 + 1) src.h)
  let p11 := src.pix (clampIdx (x0 + 1) src.w) (clampIdx (y0 + 1) src.h)
  let blend : Nat → Nat → Nat → Nat → Nat := fun c00 c10 c01 c11 =>
    fround (fadd (fadd (fmul (fmul gx gy) (fnat c00)) (fmul (fmul fx gy) (fnat c10)))
      (fadd (fmul (fmul gx fy) (fnat c01)) (fmul (fmul fx fy) (fnat c11))))
  ⟨blend p00.r p10.r p01.r p11.r, blend p00.g p10.g p01.g p11.g,
    blend p00.b p10.b p01.b p11.b, blend p00.a p10.a p01.a p11.a⟩

/-- Models `xdraw.BiLinear.Scale` of `src` onto a fresh (nw × nh) buffer:
each destination pixel centre is mapped into source space and bilinearly
sampled. -/
def goBiLinearScale (src : GoImage) (nw nh : Nat) : GoImage :=
  ⟨nw, nh, fun x y =>
    bilinearSample src
      (fsub (fdiv (fmul (fadd (fnat x) fhalf) (fnat src.w)) (fnat nw)) fhalf)
      (fsub (fdiv (fmul (fadd (fnat y) fhalf) (fnat src.h)) (fnat nh)) fhalf)⟩

/-- Models layer 1 of `generateArtworkBg`: the global wallpaper scaled
uniformly to cover the canvas (the larger of the two ratios), centre-cropped
and drawn over the canvas with the `Src` operator.  The source's float64
ratio arithmetic is carried out exactly (`Frac`) with Go's `int(...)`
truncation as a floor of the non-negative product; the cover scale makes
both offsets non-negative, so Nat subtraction/division agree with Go's int
operations. -/
def drawCoverGlobalBg (bg : GoImage) (screenW screenH : Nat) (canvas : GoImage) : GoImage :=
  let scaleX : Frac := fdiv (fnat screenW) (fnat bg.w)
  let scaleY : Frac := fdiv (fnat screenH) (fnat bg.h)
  let scale : Frac := if flt scaleX scaleY then scaleY else scaleX
  let nw : Nat := (ffloor (fmul (fnat bg.w) scale)).toNat
  let nh : Nat := (ffloor (fmul (fnat bg.h) scale)).toNat
  let scaled := goBiLinearScale bg nw nh
  let offX := (nw - screenW) / 2
  let offY := (nh - screenH) / 2
  ⟨canvas.w, canvas.h, fun x y =>
    if x + offX < nw ∧ y + offY < nh then scaled.pix (x + offX) (y + offY)
    else canvas.pix x y⟩

/-- Models `generateArtworkBg` in the case the claim addresses: the art
source path does not exist (`os.Stat` fails), so the art branch is
unreachable.  `globalBg` is the decoded global wallpaper when
`loadPNGImage` succeeds on it, `none` when the file is absent or
unreadable.  The result is the image written as `.media/bg.png`, or `none`
when nothing is written. -/
def generateArtworkBgNoArt (isBrick useGlobalBg forceBlack : Bool)
    (globalBg : Option GoImage) : Option GoImage :=
  if forceBlack = false then none
  else
    let dims := screenDimensions isBrick
    let canvas := newBlackCanvas dims.1 dims.2
    let canvas2 :=
      if useGlobalBg then
        match globalBg with
        | some bg => drawCoverGlobalBg bg dims.1 dims.2 canvas
        | none => canvas
      else canvas
    some canvas2

/-- An all-white 1280×720 global wallpaper. -/
def whiteBg1280 : GoImage := ⟨1280, 720, fun _ _ => ⟨255, 255, 255, 255⟩⟩

/-- C7 (counterexample): with no source art, always-emit mode
(`ForceBlackBg`), wallpaper compositing enabled and an all-white 1280×720
global wallpaper present, the written image's pixel (0,0) is white — the
emitted file is the wallpaper-covered base, not a solid-black image. -/
theorem c7_blackBg_counterexample :
    (generateArtworkBgNoArt false true true (some whiteBg1280)).map
        (fun img => (img.w, img.h, img.pix 0 0)) =
      some (1280, 720, (⟨255, 255, 255, 255⟩ : Pix))
    ∧ (⟨255, 255, 255, 255⟩ : Pix) ≠ blackPix := by
  refine ⟨?_, by decide⟩
  rfl

/-- C7 (amended): with no source artwork, in skip-if-missing mode
(`ForceBlackBg` off) no image is written; in always-emit mode on the
non-Brick device, when wallpaper compositing is off or no global wallpaper
is available, a solid-black image at the full 1280×720 canvas resolution
is written. -/
theorem c7_blackBg_amended (isBrick useGlobalBg forceBlack : Bool)
    (globalBg : Option GoImage) :
    (forceBlack = false → generateArtworkBgNoArt isBrick useGlobalBg forceBlack globalBg = none)
    ∧ (forceBlack = true → isBrick = false → (useGlobalBg = false ∨ globalBg = none) →
        generateArtworkBgNoArt isBrick useGlobalBg forceBlack globalBg =
          some (newBlackCanvas 1280 720)) := by
  constructor
  · intro h
    simp [generateArtworkBgNoArt, h]
  · intro h1 h2 h3
    subst h1
    subst h2
    unfold generateArtworkBgNoArt
    rw [if_neg (by simp)]
    cases h3 with
    | inl h =>
      subst h
      simp [screenDimensions]
    | inr h =>
      subst h
      cases useGlobalBg <;> simp [screenDimensions]

/-- C7 (witness): the amended claim at concrete settings — always-emit with
the wallpaper layer off emits the 1280×720 black canvas, skip-if-missing
emits nothing. -/
theorem c7_blackBg_witness :
    generateArtworkBgNoArt false false true none = some (newBlackCanvas 1280 720)
    ∧ generateArtworkBgNoArt false false false none = none :=
  ⟨(c7_blackBg_amended false false true none).2 rfl rfl (Or.inl rfl),
   (c7_blackBg_amended false false false none).1 rfl⟩

/-- Models `strings.ToLower` on one rune, on the ASCII range (A-Z map to
a-z; the full Unicode simple-case table maps other letters likewise — the
ordering facts proved below are parametric in the key function and do not
depend on the table). -/
def goToLowerChar (c : Char) : Char :=
  if 65 ≤ c.toNat ∧ c.toNat ≤ 90 then Char.ofNat (c.toNat + 32) else c

/-- Models `strings.ToLower`. -/
def goToLower (s : GoStr) : GoStr := s.map goToLowerChar

/-- Lexicographic ≤ on rune sequences: the reflexive closure of Go's
byte-wise `<` on UTF-8 strings (UTF-8 byte order coincides with code-point
order). -/
def goStrLE : GoStr → GoStr → Bool
  | [], _ => true
  | _ :: _, [] => false
  | a :: as, b :: bs =>
    decide (a.toNat < b.toNat) || (decide (a.toNat = b.toNat) && goStrLE as bs)

theorem goStrLE_trans (a b c : GoStr) (h1 : goStrLE a b = true) (h2 : goStrLE b c = true) :
    goStrLE a c = true := by
  induction a generalizing b c with
  | nil => rfl
  | cons x xs ih =>
    cases b with
    | nil => simp [goStrLE] at h1
    | cons y ys =>
      cases c with
      | nil => simp [goStrLE] at h2
      | cons z zs =>
        simp only [goStrLE, Bool.or_eq_true, Bool.and_eq_true, decide_eq_true_eq] at h1 h2 ⊢
        rcases h1 with h1 | ⟨h1e, h1r⟩ <;> rcases h2 with h2 | ⟨h2e, h2r⟩
        · exact Or.inl (by omega)
        · exact Or.inl (by omega)
        · exact Or.inl (by omega)
        · exact Or.inr ⟨by omega, ih _ _ h1r h2r⟩

theorem goStrLE_total (a b : GoStr) : (goStrLE a b || goStrLE b a) = true := by
  induction a generalizing b with
  | nil => simp [goStrLE]
  | cons x xs ih =>
    cases b with
    | nil => simp [goStrLE]
    | cons y ys =>
      simp only [goStrLE, Bool.or_eq_true, Bool.and_eq_true, decide_eq_true_eq]
      have hr := ih ys
      simp only [Bool.or_eq_true] at hr
      rcases Nat.lt_trichotomy x.toNat y.toNat with h | h | h
      · exact Or.inl (Or.inl h)
      · rcases hr with hr | hr
        · exact Or.inl (Or.inr ⟨h, hr⟩)
        · exact Or.inr (Or.inr ⟨h.symm, hr⟩)
      · exact Or.inr (Or.inl h)

/-- Models the `sort.Slice(x, less)` call each scanner ends with, where
`less i j` is `lower(display i) < lower(display j)`: the sort's
postcondition is a permutation of the input that is pairwise
non-decreasing under the induced total preorder; `mergeSort` with the
closure `¬ less j i` realizes exactly that postcondition. -/
def sortByDisplayKey {α : Type} (key : α → GoStr) (l : List α) : List α :=
  l.mergeSort (fun a b => goStrLE (goToLower (key a)) (goToLower (key b)))

theorem sortByDisplayKey_pairwise {α : Type} (key : α → GoStr) (l : List α) :
    (sortByDisplayKey key l).Pairwise
      (fun a b => goStrLE (goToLower (key a)) (goToLower (key b)) = true) := by
  have h := @List.sorted_mergeSort α
    (fun a b => goStrLE (goToLower (key a)) (goToLower (key b)))
    (fun a b c hab hbc => goStrLE_trans _ _ _ hab hbc)
    (fun a b => goStrLE_total _ _)
    l
  exact h

/-- A directory entry of the roms directory, carrying the facts the
scanners probe from the filesystem: its name, whether it is a directory,
whether a `.shortcut` marker file exists inside it, that marker's trimmed
content (`[]` when missing or unreadable, as `readShortcutMarker`
returns), and whether `dirHasVisibleContent` holds for it. -/
structure RomsDirEntry where
  name : GoStr
  isDir : Bool
  hasMarkerFile : Bool
  markerContent : GoStr
  hasVisibleContent : Bool

/-- Models `isHidden`: dot-names, `.disabled` names, `map.txt`. -/
def isHidden (name : GoStr) : Bool :=
  goStartsWith ['.'] name || goHasSuffix (gstr ".disabled") name || name == gstr "map.txt"

/-- Models `isMacDotfile`: a dot-name without a parenthesized tag. -/
def isMacDotfile (name : GoStr) : Bool :=
  if goStartsWith ['.'] name = false then false
  else extractTag name == []

/-- Models the source's `ConsoleDir` record (`Path` omitted: derivable
from `Name`, read by no embedded operation). -/
structure ConsoleDir where
  Name : GoStr
  Tag : GoStr
  Display : GoStr
  IsDisabled : Bool

/-- Models `scanConsoleDirs` over the probed entries of the roms
directory: skip non-directories, shortcut folders and (depending on
`showHidden`) hidden/contentless or Mac-artifact entries, strip
`.disabled`, require a tag, and sort by lower-cased display name. -/
def scanConsoleDirs (showHidden : Bool) (entries : List RomsDirEntry) : List ConsoleDir :=
  sortByDisplayKey (fun c => c.Display) (entries.filterMap (fun e =>
    if e.isDir = false then none
    else if isShortcutFolder e.name e.hasMarkerFile then none
    else if (if showHidden = false then isHidden e.name || !e.hasVisibleContent
             else isMacDotfile e.name || e.name == gstr "map.txt") then none
    else
      let isDisabled := goHasSuffix (gstr ".disabled") e.name
      let baseName := if isDisabled then goTrimTail (gstr ".disabled") e.name else e.name
      let tag := extractTag baseName
      if tag = [] then none
      else some ⟨e.name, tag, extractDisplayName baseName, isDisabled⟩))

/-- An entry of one console directory as `scanROMs` probes it: name,
directory flag, and whether `{base}.m3u` / `{base}.cue` exists inside it. -/
structure ConsoleDirEntry where
  name : GoStr
  isDir : Bool
  hasM3uInside : Bool
  hasCueInside : Bool

/-- Models `scanROMs`: visibility filtering, `.disabled` stripping,
multi-disc (`.m3u` playlist) and CUE-folder detection for directories,
extension stripping for plain files, and the final sort by lower-cased
display name. -/
def scanROMs (showHidden : Bool) (entries : List ConsoleDirEntry) : List ROMFile :=
  sortByDisplayKey (fun r => r.Display) (entries.filterMap (fun e =>
    if (if showHidden = false then isHidden e.name
        else goStartsWith ['.'] e.name || e.name == gstr "map.txt") then none
    else
      let isDisabled := goHasSuffix (gstr ".disabled") e.name
      let baseName := if isDisabled then goTrimTail (gstr ".disabled") e.name else e.name
      if e.isDir then
        if e.hasM3uInside then some ⟨e.name, baseName, true, false, isDisabled⟩
        else if e.hasCueInside then some ⟨e.name, baseName, false, true, isDisabled⟩
        else none
      else some ⟨e.name, stripExtension baseName, false, false, isDisabled⟩))

/-- An entry of the platform tools directory. -/
structure ToolsDirEntry where
  name : GoStr
  isDir : Bool

/-- Models the source's `ToolPak` record (`Path` omitted). -/
structure ToolPak where
  Name : GoStr
  Display : GoStr

/-- Models `scanTools`: accept `.pak` (and, with `showHidden`,
`.pak.disabled`) directories and sort by lower-cased display name. -/
def scanTools (showHidden : Bool) (entries : List ToolsDirEntry) : List ToolPak :=
  sortByDisplayKey (fun t => t.Display) (entries.filterMap (fun e =>
    if e.isDir = false then none
    else if showHidden = false ∧ isHidden e.name then none
    else if showHidden ∧ goStartsWith ['.'] e.name then none
    else
      let isDisabled := goHasSuffix (gstr ".pak.disabled") e.name
      if goHasSuffix (gstr ".pak") e.name = false ∧ isDisabled = false then none
      else
        let baseName :=
          if isDisabled then goTrimTail (gstr ".pak") (goTrimTail (gstr ".disabled") e.name)
          else goTrimTail (gstr ".pak") e.name
        let display := if isDisabled then baseName ++ gstr "  [disabled]" else baseName
        some ⟨baseName, display⟩))

/-- Models the source's `Shortcut` record (`Path` and `TargetPath`
omitted: target resolution reads the folder's `target`/`.m3u` file and
joins paths, and affects none of the name/tag/display fields or the
ordering below). -/
structure Shortcut where
  Name : GoStr
  Tag : GoStr
  Display : GoStr
  IsTool : Bool

/-- Models `scanShortcuts`: keep the directories `isShortcutFolder`
accepts, extract the tag, take the display name from the marker file or
the fallback, and sort by lower-cased display name. -/
def scanShortcuts (entries : List RomsDirEntry) : List Shortcut :=
  sortByDisplayKey (fun s => s.Display) (entries.filterMap (fun e =>
    if e.isDir = false then none
    else if isShortcutFolder e.name e.hasMarkerFile = false then none
    else
      let tag := extractTag e.name
      some ⟨e.name, tag, shortcutDisplay e.name e.markerContent, tag == bridgeEmuTagChars⟩))

/-- C10: for every state of the scanned directories, the lists returned by
`scanShortcuts`, `scanConsoleDirs`, `scanROMs` and `scanTools` are sorted
in ascending case-insensitive order of display names. -/
theorem c10_scans_sorted (rEntries : List RomsDirEntry) (cEntries : List ConsoleDirEntry)
    (tEntries : List ToolsDirEntry) (showHidden : Bool) :
    (scanShortcuts rEntries).Pairwise
      (fun a b => goStrLE (goToLower a.Display) (goToLower b.Display) = true)
    ∧ (scanConsoleDirs showHidden rEntries).Pairwise
      (fun a b => goStrLE (goToLower a.Display) (goToLower b.Display) = true)
    ∧ (scanROMs showHidden cEntries).Pairwise
      (fun a b => goStrLE (goToLower a.Display) (goToLower b.Display) = true)
    ∧ (scanTools showHidden tEntries).Pairwise
      (fun a b => goStrLE (goToLower a.Display) (goToLower b.Display) = true) :=
  ⟨sortByDisplayKey_pairwise _ _, sortByDisplayKey_pairwise _ _,
    sortByDisplayKey_pairwise _ _, sortByDisplayKey_pairwise _ _⟩

end ShortcutsPak
